import Mathlib

/-!
# Verification of the blackjack round engine (`src/App.jsx`)

A shallow embedding of the round engine of the multi-seat blackjack table.
Each definition translates the JavaScript function of the same name from
`src/App.jsx`.  Conventions of the embedding:

* JavaScript arrays become `List`s; the deck is consumed from its **end**
  (`Array.pop`), exactly as in the source, so `drawCard` takes `getLast?`.
* Chip amounts and bets are JavaScript numbers used as exact decimals
  (`× 2.5`, `× 1.5`, `Math.round`); they are embedded as `ℚ`.
* Card point values are the naturals 2–11 derived from the rank.
* A JavaScript runtime error (reading a property of `undefined`, which is
  what drawing from an empty deck eventually causes) is modelled by an
  `Option` result being `none`.
* `Math.random`-dependent reshuffling (`shuffle(createDeck())` inside
  `ensureDeck`) is modelled by passing the freshly shuffled replacement
  deck as an explicit `fresh` parameter.
* A React event handler becomes a function `GameState → Option GameState`:
  the sequence of `setX` calls it performs is flattened into one record
  update (later `setX` calls of the same handler override earlier ones,
  which is also the net effect in the source).
-/

namespace BlackjackV

/-- A card, `{ suit, rank, value }` in the source.  `value` is the nominal
blackjack value derived from the rank when the deck is created. -/
structure Card where
  suit : String
  rank : String
  value : ℕ
deriving DecidableEq, Repr, Inhabited

/-- The nominal value the source derives for a rank inside `createDeck`:
Ace 11, J/Q/K 10, otherwise `Number(rank)` — written out for the thirteen
ranks of `RANKS`, the only strings the source ever evaluates. -/
def rankValue : String → ℕ
  | "A" => 11
  | "J" | "Q" | "K" => 10
  | "2" => 2
  | "3" => 3
  | "4" => 4
  | "5" => 5
  | "6" => 6
  | "7" => 7
  | "8" => 8
  | "9" => 9
  | "10" => 10
  | _ => 0

/-- Build a card the way `createDeck` does. -/
def mkCard (suit rank : String) : Card :=
  { suit := suit, rank := rank, value := rankValue rank }

/-- A seated player, `{ id, name, chips, bet, hand, status, result }`. -/
structure Player where
  id : ℕ
  name : String
  chips : ℚ
  bet : ℚ
  hand : List Card
  status : String
  result : String
deriving DecidableEq, Repr, Inhabited

/-- The dealer, `{ hand, hidden }`. -/
structure Dealer where
  hand : List Card
  hidden : Bool
deriving DecidableEq, Repr, Inhabited

/-- The mutable table state held in the component's `useState` hooks that
the round engine reads and writes. -/
structure GameState where
  phase : String
  playerCount : ℕ
  players : List Player
  dealer : Dealer
  deck : List Card
  currentIndex : ℕ
  message : String
  round : ℕ
  pot : ℚ
deriving DecidableEq, Repr, Inhabited

/-- `const isMulti = playerCount > 1`. -/
def isMulti (s : GameState) : Bool := decide (1 < s.playerCount)

/-- `drawCard(deck)`: copies the deck and `pop`s its last element.  On an
empty deck JavaScript's `pop()` yields `undefined`, embedded as `none`;
no exception is raised at this point. -/
def drawCard (deck : List Card) : Option Card × List Card :=
  (deck.getLast?, deck.dropLast)

/-- The `while (total > 21 && aces > 0) { total -= 10; aces -= 1; }` loop
of `calculateHand`, recursing on the number of aces left. -/
def reduceAces : ℕ → ℕ → ℕ
  | total, 0 => total
  | total, aces + 1 => if 21 < total then reduceAces (total - 10) aces else total

/-- `calculateHand(hand)`: sum of the nominal card values, then reduce
aces from 11 to 1 while the total exceeds 21. -/
def calculateHand (hand : List Card) : ℕ :=
  reduceAces (hand.map Card.value).sum ((hand.filter fun c => c.rank == "A").length)

/-- `isBlackjack(hand)`: exactly two cards totalling 21. -/
def isBlackjack (hand : List Card) : Bool :=
  hand.length == 2 && calculateHand hand == 21

/-- `resolveResult(player, dealerTotal, dealerBlackjack, dealerBust)`. -/
def resolveResult (player : Player) (dealerTotal : ℕ)
    (dealerBlackjack dealerBust : Bool) : String :=
  let playerTotal := calculateHand player.hand
  if player.status == "bust" then "lose"
  else if isBlackjack player.hand && dealerBlackjack then "push"
  else if dealerBlackjack then "lose"
  else if isBlackjack player.hand then "blackjack"
  else if dealerBust then "win"
  else if dealerTotal < playerTotal then "win"
  else if playerTotal < dealerTotal then "lose"
  else "push"

/- ------------------------------------------------------------------ -/
/- Helper lemmas on the hand evaluator. -/

/-- The ace-reduction loop subtracts `10 * k` for the least `k` that either
brings the total to at most 21 or exhausts the aces. -/
theorem reduceAces_characterisation (aces total : ℕ) :
    ∃ k, k ≤ aces ∧ reduceAces total aces = total - 10 * k ∧
      (reduceAces total aces ≤ 21 ∨ k = aces) ∧
      (∀ j, j < k → 21 < total - 10 * j) := by
  induction aces generalizing total with
  | zero =>
    refine ⟨0, le_refl 0, by simp [reduceAces], Or.inr rfl, by omega⟩
  | succ n ih =>
    by_cases h : 21 < total
    · obtain ⟨k, hk, heq, hor, hmin⟩ := ih (total - 10)
      refine ⟨k + 1, by omega, ?_, ?_, ?_⟩
      · simp only [reduceAces, if_pos h]
        omega
      · simp only [reduceAces, if_pos h]
        rcases hor with h' | h'
        · exact Or.inl h'
        · exact Or.inr (by omega)
      · intro j hj
        cases j with
        | zero => simpa using h
        | succ j' =>
          have := hmin j' (by omega)
          omega
    · refine ⟨0, by omega, ?_, ?_, by omega⟩
      · simp [reduceAces, h]
      · exact Or.inl (by simp [reduceAces, h]; omega)

/-- C7: `calculateHand` returns the sum of the nominal card values minus
`10 * k` where `k` is the least number of ace reductions that brings the
total to at most 21 or exhausts the aces; and the four sample hands
evaluate as the specification states: A+A+9 = 21, A+9 = 20, K+Q+2 = 22
(no reduction possible), A+A+A+8 = 21 (two reductions). -/
theorem calculateHand_soft_ace_rule :
    (∀ hand : List Card, ∃ k,
        k ≤ (hand.filter fun c => c.rank == "A").length ∧
        calculateHand hand = (hand.map Card.value).sum - 10 * k ∧
        (calculateHand hand ≤ 21 ∨ k = (hand.filter fun c => c.rank == "A").length) ∧
        (∀ j, j < k → 21 < (hand.map Card.value).sum - 10 * j)) ∧
    calculateHand [mkCard "♠" "A", mkCard "♥" "A", mkCard "♦" "9"] = 21 ∧
    calculateHand [mkCard "♠" "A", mkCard "♦" "9"] = 20 ∧
    calculateHand [mkCard "♠" "K", mkCard "♥" "Q", mkCard "♦" "2"] = 22 ∧
    calculateHand [mkCard "♠" "A", mkCard "♥" "A", mkCard "♦" "A", mkCard "♣" "8"] = 21 := by
  refine ⟨fun hand => ?_, by decide, by decide, by decide, by decide⟩
  have h := reduceAces_characterisation
    ((hand.filter fun c => c.rank == "A").length) ((hand.map Card.value).sum)
  simpa [calculateHand] using h

/-- Witness for C7: the characterisation instantiated at the concrete hand
A+A+9, where one reduction (k = 1) is taken. -/
theorem calculateHand_soft_ace_rule_witness :
    calculateHand [mkCard "♠" "A", mkCard "♥" "A", mkCard "♦" "9"] = 21 :=
  calculateHand_soft_ace_rule.2.1

/-- C1: `resolveResult` classifies a player's outcome by the exact
precedence of §4.4: bust loses; otherwise both naturals push; otherwise a
dealer natural loses; otherwise a player natural pays `blackjack`;
otherwise a dealer bust wins; otherwise the totals are compared. -/
theorem resolveResult_precedence (p : Player) (dealerTotal : ℕ) (dBJ dBust : Bool) :
    (p.status = "bust" → resolveResult p dealerTotal dBJ dBust = "lose") ∧
    (p.status ≠ "bust" → isBlackjack p.hand = true → dBJ = true →
      resolveResult p dealerTotal dBJ dBust = "push") ∧
    (p.status ≠ "bust" → isBlackjack p.hand = false → dBJ = true →
      resolveResult p dealerTotal dBJ dBust = "lose") ∧
    (p.status ≠ "bust" → isBlackjack p.hand = true → dBJ = false →
      resolveResult p dealerTotal dBJ dBust = "blackjack") ∧
    (p.status ≠ "bust" → isBlackjack p.hand = false → dBJ = false → dBust = true →
      resolveResult p dealerTotal dBJ dBust = "win") ∧
    (p.status ≠ "bust" → isBlackjack p.hand = false → dBJ = false → dBust = false →
      resolveResult p dealerTotal dBJ dBust =
        if dealerTotal < calculateHand p.hand then "win"
        else if calculateHand p.hand < dealerTotal then "lose"
        else "push") := by
  refine ⟨?_, ?_, ?_, ?_, ?_, ?_⟩
  · intro h1; simp [resolveResult, h1]
  · intro h1 h2 h3; simp [resolveResult, h1, h2, h3]
  · intro h1 h2 h3; simp [resolveResult, h1, h2, h3]
  · intro h1 h2 h3; simp [resolveResult, h1, h2, h3]
  · intro h1 h2 h3 h4; simp [resolveResult, h1, h2, h3, h4]
  · intro h1 h2 h3 h4; simp [resolveResult, h1, h2, h3, h4]

/-- Witness for C1: a busted player loses even against a busted dealer,
and two naturals push, at concrete inputs. -/
theorem resolveResult_precedence_witness :
    resolveResult
      { id := 1, name := "Player 1", chips := 900, bet := 100,
        hand := [mkCard "♠" "K", mkCard "♥" "Q", mkCard "♦" "5"],
        status := "bust", result := "" } 22 false true = "lose" ∧
    resolveResult
      { id := 2, name := "Player 2", chips := 900, bet := 100,
        hand := [mkCard "♠" "A", mkCard "♥" "K"],
        status := "blackjack", result := "" } 21 true false = "push" := by
  constructor
  · exact (resolveResult_precedence _ 22 false true).1 rfl
  · exact (resolveResult_precedence _ 21 true false).2.1 (by decide) (by decide) rfl

/-- Counterexample for C9: drawing from the empty deck does **not** fail
loudly — `pop()` silently yields `undefined` (embedded `none`) and the
remaining deck stays empty; no assertion guards `drawCard`. -/
theorem drawCard_empty_silent : drawCard ([] : List Card) = (none, []) := rfl

/-- C9 (amended): `drawCard` removes and returns the last card of a
nonempty deck together with the remaining deck; on an empty deck it
silently returns no card (`undefined`) instead of failing with an
assertion. -/
theorem drawCard_pop_spec :
    (∀ (deck : List Card) (h : deck ≠ []),
      drawCard deck = (some (deck.getLast h), deck.dropLast)) ∧
    drawCard ([] : List Card) = (none, []) := by
  refine ⟨fun deck h => ?_, rfl⟩
  simp [drawCard, List.getLast?_eq_getLast_of_ne_nil h]

/-- Witness for C9: drawing from a concrete one-card deck returns that
card and the empty remainder. -/
theorem drawCard_pop_spec_witness :
    drawCard [mkCard "♠" "A"] = (some (mkCard "♠" "A"), []) := by
  have h := drawCard_pop_spec.1 [mkCard "♠" "A"] (by decide)
  simpa using h

/- ------------------------------------------------------------------ -/
/- Settlement engine. -/

/-- JavaScript's `Math.round` on the (non-negative) payout values the
engine rounds: round half up, `⌊q + 1/2⌋`. -/
def jsRound (q : ℚ) : ℚ := ((⌊q + 1/2⌋ : ℤ) : ℚ)

/-- A winner's weight in the pooled distribution:
`player.bet * (player.result === "blackjack" ? 1.5 : 1)`. -/
def winWeight (p : Player) : ℚ :=
  p.bet * (if p.result == "blackjack" then 1.5 else 1)

/-- The `payoutMap` lookup of the source: the map is keyed by `player.id`
and written once per winner in list order, so a lookup returns the value
computed from the **last** winner bearing that id (`?? 0` when absent). -/
def potPayout (winners : List Player) (potPool totalWeight : ℚ) (pid : ℕ) : ℚ :=
  match (winners.filter fun w => w.id == pid).getLast? with
  | some w => jsRound (if 0 < totalWeight then potPool * winWeight w / totalWeight else 0)
  | none => 0

/-- The pooled (multiplayer) settlement branch of `handleDealerTurn`
(lines 274–302): refund pushes from the pot, split the remainder among
winners by weight, and zero the pot exactly when some winner weight is
positive. -/
def settleMulti (resolved : List Player) (nextPot : ℚ) : List Player × ℚ :=
  let pushes := resolved.filter fun p => p.result == "push"
  let potPool := nextPot - (pushes.map Player.bet).sum
  let winners := resolved.filter fun p => p.result == "win" || p.result == "blackjack"
  let totalWeight := (winners.map winWeight).sum
  let finalPlayers := resolved.map fun p =>
    let refund := if p.result == "push" then p.bet else 0
    { p with chips := p.chips + refund + potPayout winners potPool totalWeight p.id }
  (finalPlayers, if 0 < totalWeight then 0 else potPool)

/-- The single-seat settlement of one player (lines 305–314): the three
consecutive `if` statements overwriting `payout`, then the credit. -/
def settleSinglePlayer (p : Player) : Player :=
  let payout0 : ℚ := 0
  let payout1 := if p.result == "push" then p.bet else payout0
  let payout2 := if p.result == "win" then p.bet * 2 else payout1
  let payout3 := if p.result == "blackjack" then p.bet * 2.5 else payout2
  { p with chips := p.chips + payout3 }

/-- Evaluate `jsRound` from floor bounds. -/
theorem jsRound_eq (q : ℚ) (n : ℤ) (h1 : (n : ℚ) ≤ q + 1/2)
    (h2 : q + 1/2 < (n : ℚ) + 1) : jsRound q = (n : ℚ) := by
  unfold jsRound
  have h : ⌊q + 1/2⌋ = n := by
    rw [Int.floor_eq_iff]
    · exact ⟨h1, by exact_mod_cast h2⟩
  exact_mod_cast congrArg (fun z : ℤ => (z : ℚ)) h

/-- With pairwise distinct player ids, filtering a filtered player list
down to one id isolates exactly that player (when it passes the filter).
This resolves the source's `payoutMap` lookup. -/
theorem filter_filter_id_of_nodup (q : Player → Bool) :
    ∀ (ps : List Player), (ps.map Player.id).Nodup →
      ∀ p ∈ ps, (ps.filter q).filter (fun w => w.id == p.id) =
        if q p then [p] else [] := by
  intro ps
  induction ps with
  | nil => intro _ p hp; cases hp
  | cons a t ih =>
    intro hnd p hp
    have hmap : (∀ x ∈ t, ¬x.id = a.id) ∧ (t.map Player.id).Nodup := by simpa using hnd
    rcases List.mem_cons.mp hp with rfl | hpt
    · have ht : (t.filter q).filter (fun w => w.id == p.id) = [] := by
        rw [List.filter_eq_nil_iff]
        intro w hw
        have hwt : w ∈ t := List.mem_of_mem_filter hw
        simpa using hmap.1 w hwt
      by_cases hq : q p
      · simp [List.filter_cons, hq, ht]
      · simp [List.filter_cons, hq, ht]
    · have hane : (a.id == p.id) = false := by
        have : a.id ≠ p.id := fun h => hmap.1 p hpt h.symm
        simpa using this
      have := ih hmap.2 p hpt
      by_cases hq : q a
      · simp [List.filter_cons, hq, hane, this]
      · simp [List.filter_cons, hq, this]

/-- With pairwise distinct ids the `payoutMap` lookup yields the player's
own proportional share when they are a winner and 0 otherwise. -/
theorem potPayout_of_nodup (resolved : List Player)
    (hnd : (resolved.map Player.id).Nodup) (p : Player) (hp : p ∈ resolved)
    (potPool tw : ℚ) :
    potPayout (resolved.filter fun w => w.result == "win" || w.result == "blackjack")
        potPool tw p.id =
      if p.result == "win" || p.result == "blackjack" then
        jsRound (if 0 < tw then potPool * winWeight p / tw else 0)
      else 0 := by
  unfold potPayout
  rw [filter_filter_id_of_nodup _ resolved hnd p hp]
  by_cases hq : (p.result == "win" || p.result == "blackjack") = true
  · simp [hq]
  · have hq' : (p.result == "win" || p.result == "blackjack") = false := by
      simpa using hq
    simp [hq']

/-- C6: single-seat settlement credits `bet × 1` for a push, `bet × 2` for
a win, `bet × 2.5` for a blackjack and nothing for a loss; at `bet = 100`
a blackjack credits 250 and the net change against the pre-debit balance
is +150. -/
theorem settleSingle_payout_table :
    (∀ p : Player, p.result = "push" → (settleSinglePlayer p).chips = p.chips + p.bet * 1) ∧
    (∀ p : Player, p.result = "win" → (settleSinglePlayer p).chips = p.chips + p.bet * 2) ∧
    (∀ p : Player, p.result = "blackjack" →
      (settleSinglePlayer p).chips = p.chips + p.bet * 2.5) ∧
    (∀ p : Player, p.result = "lose" → (settleSinglePlayer p).chips = p.chips + 0) ∧
    (∀ p : Player, p.result = "blackjack" → p.bet = 100 →
      (settleSinglePlayer p).chips = p.chips + 250 ∧
      (settleSinglePlayer p).chips - (p.chips + p.bet) = 150) := by
  refine ⟨?_, ?_, ?_, ?_, ?_⟩
  · intro p h; simp [settleSinglePlayer, h]
  · intro p h; simp [settleSinglePlayer, h]
  · intro p h; simp [settleSinglePlayer, h]
  · intro p h; simp [settleSinglePlayer, h]
  · intro p h hb
    constructor
    · simp [settleSinglePlayer, h, hb]; norm_num
    · simp [settleSinglePlayer, h, hb]; norm_num

/-- Witness for C6: the concrete blackjack payout at bet 100 from a
post-debit balance of 900 yields 1150 chips. -/
theorem settleSingle_payout_table_witness :
    (settleSinglePlayer
      { id := 1, name := "Player 1", chips := 900, bet := 100,
        hand := [mkCard "♠" "A", mkCard "♥" "K"], status := "blackjack",
        result := "blackjack" }).chips = 1150 := by
  have h := settleSingle_payout_table.2.2.2.2
    { id := 1, name := "Player 1", chips := 900, bet := 100,
      hand := [mkCard "♠" "A", mkCard "♥" "K"], status := "blackjack",
      result := "blackjack" } rfl rfl
  rw [h.1]; norm_num

/-- C2: pooled settlement, for players with pairwise distinct ids: the pot
returned is 0 when some winner weight is positive and otherwise keeps the
remainder left after push refunds; and the `i`-th settled player is the
`i`-th input player credited with their bet when they pushed, plus their
rounded proportional share `jsRound (remainingPot × own weight / total
weight)` when they won (weight `bet × 1.5` for blackjack, `bet × 1` for
win), and nothing otherwise. -/
theorem settleMulti_distribution (resolved : List Player) (nextPot : ℚ)
    (hnd : (resolved.map Player.id).Nodup) :
    (settleMulti resolved nextPot).2 =
      (if 0 < ((resolved.filter fun w => w.result == "win" || w.result == "blackjack").map
          winWeight).sum
       then 0
       else nextPot - ((resolved.filter fun w => w.result == "push").map Player.bet).sum) ∧
    ∀ i (h : i < resolved.length),
      ((settleMulti resolved nextPot).1)[i]? =
        some
          (let p := resolved[i]
           let potPool :=
             nextPot - ((resolved.filter fun w => w.result == "push").map Player.bet).sum
           let tw := ((resolved.filter fun w => w.result == "win" || w.result == "blackjack").map
             winWeight).sum
           { p with chips := p.chips +
               (if p.result = "push" then p.bet else 0) +
               (if p.result = "win" ∨ p.result = "blackjack" then
                  jsRound (if 0 < tw then potPool * winWeight p / tw else 0)
                else 0) }) := by
  constructor
  · simp only [settleMulti]
  · intro i h
    have hp : resolved[i] ∈ resolved := List.getElem_mem h
    simp only [settleMulti, List.getElem?_map, List.getElem?_eq_getElem h,
      Option.map_some', Option.some.injEq]
    rw [potPayout_of_nodup resolved hnd _ hp]
    simp [beq_iff_eq, Bool.or_eq_true]

/-- The pushing player of the specification's pooled example: bet 100
already debited from 1000 chips, result `push`. -/
def pushPlayerA : Player :=
  { id := 1, name := "Player 1", chips := 900, bet := 100, hand := [],
    status := "stand", result := "push" }

/-- The winning player of the specification's pooled example: bet 200
already debited from 1000 chips, result `win`. -/
def winPlayerB : Player :=
  { id := 2, name := "Player 2", chips := 800, bet := 200, hand := [],
    status := "stand", result := "win" }

/-- Witness for C2: the specification's example — bets 100 and 200
(pot 300), player A pushes and player B wins; A is refunded 100, B
receives the remaining 200, and the final pot is 0. -/
theorem settleMulti_distribution_witness :
    (settleMulti [pushPlayerA, winPlayerB] 300).2 = 0 ∧
    ((settleMulti [pushPlayerA, winPlayerB] 300).1)[0]? =
      some { pushPlayerA with chips := 1000 } ∧
    ((settleMulti [pushPlayerA, winPlayerB] 300).1)[1]? =
      some { winPlayerB with chips := 1000 } := by
  have main := settleMulti_distribution [pushPlayerA, winPlayerB] 300 (by decide)
  have hr : jsRound (200 : ℚ) = ((200 : ℤ) : ℚ) :=
    jsRound_eq 200 200 (by norm_num) (by norm_num)
  refine ⟨?_, ?_, ?_⟩
  · rw [main.1]
    simp [pushPlayerA, winPlayerB, winWeight]
  · have h0 := main.2 0 (by norm_num)
    rw [h0]
    simp [pushPlayerA, winPlayerB, winWeight]
    norm_num
  · have h1 := main.2 1 (by norm_num)
    rw [h1]
    simp [pushPlayerA, winPlayerB, winWeight, hr]
    norm_num [hr]

/- ------------------------------------------------------------------ -/
/- Betting phase. -/

/-- `handleBetAdd(index, amount)`: cap the increased bet at the player's
chips, `Math.min(player.chips, player.bet + amount)`. -/
def handleBetAdd (index : ℕ) (amount : ℚ) (players : List Player) : List Player :=
  players.mapIdx fun idx p =>
    if idx = index then { p with bet := min p.chips (p.bet + amount) } else p

/-- `handleBetClear(index)`: reset the targeted player's bet to 0. -/
def handleBetClear (index : ℕ) (players : List Player) : List Player :=
  players.mapIdx fun idx p => if idx = index then { p with bet := 0 } else p

/-- `handleBetAllIn(index)`: set the targeted player's bet to their whole
chip balance. -/
def handleBetAllIn (index : ℕ) (players : List Player) : List Player :=
  players.mapIdx fun idx p => if idx = index then { p with bet := p.chips } else p

/-- The validation scan at the top of `handleDeal`:
`players.some((player) => player.bet <= 0 || player.bet > player.chips)`. -/
def invalidBets (players : List Player) : Bool :=
  players.any fun p => decide (p.bet ≤ 0) || decide (p.bet > p.chips)

/-- C10: each bet-adjustment operation rewrites only the targeted player's
`bet` field — to `min(chips, bet + amount)`, 0, or `chips` respectively —
and preserves `0 ≤ bet ≤ chips`; consequently, once every bet satisfies
the invariant, `handleDeal`'s validation can only fail because some bet is
exactly 0, never because a bet exceeds the player's chips. -/
theorem betOps_only_touch_target_bet (index : ℕ) (amount : ℚ) (players : List Player) :
    (∀ h : index < players.length,
      (handleBetAdd index amount players)[index]? =
        some { players[index] with
               bet := min (players[index]).chips ((players[index]).bet + amount) } ∧
      (handleBetClear index players)[index]? = some { players[index] with bet := 0 } ∧
      (handleBetAllIn index players)[index]? =
        some { players[index] with bet := (players[index]).chips }) ∧
    (∀ i, ∀ _ : i < players.length, i ≠ index →
      (handleBetAdd index amount players)[i]? = some players[i] ∧
      (handleBetClear index players)[i]? = some players[i] ∧
      (handleBetAllIn index players)[i]? = some players[i]) ∧
    (0 ≤ amount →
      (∀ p ∈ players, 0 ≤ p.bet ∧ p.bet ≤ p.chips) →
      (∀ p ∈ handleBetAdd index amount players, 0 ≤ p.bet ∧ p.bet ≤ p.chips) ∧
      (∀ p ∈ handleBetClear index players, 0 ≤ p.bet ∧ p.bet ≤ p.chips) ∧
      (∀ p ∈ handleBetAllIn index players, 0 ≤ p.bet ∧ p.bet ≤ p.chips)) ∧
    ((∀ p ∈ players, 0 ≤ p.bet ∧ p.bet ≤ p.chips) →
      (invalidBets players = true ↔ ∃ p ∈ players, p.bet = 0)) := by
  refine ⟨?_, ?_, ?_, ?_⟩
  · intro h
    refine ⟨?_, ?_, ?_⟩ <;>
      simp [handleBetAdd, handleBetClear, handleBetAllIn,
        List.getElem?_eq_getElem, h, List.getElem_mapIdx]
  · intro i h hne
    refine ⟨?_, ?_, ?_⟩ <;>
      simp [handleBetAdd, handleBetClear, handleBetAllIn,
        List.getElem?_eq_getElem, h, List.getElem_mapIdx, hne]
  · intro hamt hinv
    refine ⟨?_, ?_, ?_⟩ <;>
    · intro p hp
      rw [List.mem_iff_getElem] at hp
      obtain ⟨i, hi, rfl⟩ := hp
      simp only [handleBetAdd, handleBetClear, handleBetAllIn,
        List.length_mapIdx] at hi ⊢
      rw [List.getElem_mapIdx]
      have hmem := hinv _ (List.getElem_mem hi)
      by_cases hidx : i = index
      · subst hidx
        rw [if_pos rfl]
        constructor
        · first
            | exact le_min (le_trans hmem.1 hmem.2) (add_nonneg hmem.1 hamt)
            | exact le_refl 0
            | exact le_trans hmem.1 hmem.2
        · first
            | exact min_le_left _ _
            | exact le_trans hmem.1 hmem.2
            | exact le_refl _
      · simp only [if_neg hidx]
        exact hmem
  · intro hinv
    constructor
    · intro hbad
      rw [invalidBets, List.any_eq_true] at hbad
      obtain ⟨p, hp, hcond⟩ := hbad
      refine ⟨p, hp, ?_⟩
      have := hinv p hp
      rcases Bool.or_eq_true_iff.mp hcond with hc | hc
      · have : p.bet ≤ 0 := of_decide_eq_true hc
        linarith [(hinv p hp).1]
      · have hgt : p.bet > p.chips := of_decide_eq_true hc
        linarith [(hinv p hp).2]
    · intro ⟨p, hp, hzero⟩
      rw [invalidBets, List.any_eq_true]
      exact ⟨p, hp, by simp [hzero]⟩

/-- A freshly seated player as `buildPlayers` creates them: 1000 chips,
no bet, idle. -/
def idlePlayer : Player :=
  { id := 1, name := "Player 1", chips := 1000, bet := 0, hand := [],
    status := "idle", result := "" }

/-- Witness for C10: adding a 100 chip to the fresh player sets the bet to
`min(1000, 0 + 100) = 100`. -/
theorem betOps_only_touch_target_bet_witness :
    (handleBetAdd 0 100 [idlePlayer])[0]? = some { idlePlayer with bet := 100 } := by
  have h := (betOps_only_touch_target_bet 0 100 [idlePlayer]).1 (by norm_num)
  rw [h.1]
  norm_num [idlePlayer]

/- ------------------------------------------------------------------ -/
/- Round state machine. -/

/-- The scan loop of `nextActiveIndex`: from position `i` upwards, return
the first index whose player is `active`, else `-1`. -/
def scanActive (players : List Player) (i : ℕ) : ℤ :=
  if h : i < players.length then
    if (players.get ⟨i, h⟩).status == "active" then (i : ℤ) else scanActive players (i + 1)
  else -1
termination_by players.length - i

/-- `nextActiveIndex(players, fromIndex)`: scan strictly after
`fromIndex` (which may be `-1` when called from `handleDeal`). -/
def nextActiveIndex (players : List Player) (fromIndex : ℤ) : ℤ :=
  scanActive players (fromIndex + 1).toNat

/-- The per-player reservation step of `handleDeal`: debit the bet from
the chips and clear the per-round fields. -/
def reservePlayers (players : List Player) : List Player :=
  players.map fun p =>
    { p with chips := p.chips - p.bet, result := "", hand := [], status := "active" }

/-- `ensureDeck(current)`: replace the deck when fewer than 15 cards
remain.  The `Math.random`-shuffled replacement `shuffle(createDeck())`
enters the model as the explicit parameter `fresh`. -/
def ensureDeck (fresh current : List Card) : List Card :=
  if current.length < 15 then fresh else current

/-- One pass of the inner dealing loop of `dealInitial`: one card drawn
for each player in seat order.  A failed draw (empty deck) is `none`: in
the source the `undefined` card would crash `isBlackjack` moments later. -/
def dealToEach : List Card → List Player → Option (List Card × List Player)
  | deck, [] => some (deck, [])
  | deck, p :: rest =>
    match drawCard deck with
    | (none, _) => none
    | (some c, next) =>
      match dealToEach next rest with
      | none => none
      | some (deck2, rest2) => some (deck2, { p with hand := p.hand ++ [c] } :: rest2)

/-- `dealInitial(preparedDeck, preparedPlayers)`: replenish the deck if
needed, reset hands, deal two interleaved rounds (all players then the
dealer, twice), then mark natural blackjacks.  The dealer starts hidden. -/
def dealInitial (fresh deck : List Card) (players : List Player) :
    Option (List Card × List Player × Dealer) :=
  let deck0 := ensureDeck fresh deck
  let players0 := players.map fun p => { p with hand := [], status := "active", result := "" }
  match dealToEach deck0 players0 with
  | none => none
  | some (deck1, players1) =>
    match drawCard deck1 with
    | (none, _) => none
    | (some d1, deck2) =>
      match dealToEach deck2 players1 with
      | none => none
      | some (deck3, players2) =>
        match drawCard deck3 with
        | (none, _) => none
        | (some d2, deck4) =>
          some (deck4,
            players2.map fun p =>
              if isBlackjack p.hand then { p with status := "blackjack" } else p,
            { hand := [d1, d2], hidden := true })

/-- The validation message `handleDeal` shows when a bet is invalid. -/
def dealRejectMsg : String := "全員のベットを0より大きく、所持チップ以下で入力してください"

/-- The prompt shown when the playing phase starts. -/
def actionMsg : String := "アクションを選んでください"

/-- The message shown when the round ends. -/
def roundEndMsg : String := "ラウンド終了。次のラウンドを開始できます"

/-- The dealer draw loop of `handleDealerTurn`: draw while the total is
strictly below 17.  Exhausting the deck inside the loop is the JavaScript
crash (`undefined.value`), modelled `none`. -/
def dealerDraw (deck hand : List Card) : Option (List Card × List Card) :=
  if calculateHand hand < 17 then
    match h : drawCard deck with
    | (none, _) => none
    | (some c, next) => dealerDraw next (hand ++ [c])
  else some (deck, hand)
termination_by deck.length
decreasing_by
  simp only [drawCard, Prod.mk.injEq] at h
  obtain ⟨h1, h2⟩ := h
  have hne : deck ≠ [] := by
    intro hnil
    subst hnil
    simp at h1
  rw [← h2, List.length_dropLast]
  have := List.length_pos.mpr hne
  omega

/-- `handleDealerTurn(currentPlayers, currentDealer, currentDeck,
nextPot)`: reveal, draw to 17, resolve every player's result, then settle
through the pooled or the single-seat branch. -/
def handleDealerTurn (s : GameState) (currentPlayers : List Player)
    (currentDealer : Dealer) (currentDeck : List Card) (nextPot : ℚ) :
    Option GameState :=
  match dealerDraw currentDeck currentDealer.hand with
  | none => none
  | some (nextDeck, dealerHand) =>
    let nextDealer : Dealer := { hand := dealerHand, hidden := false }
    let dealerTotal := calculateHand dealerHand
    let dealerBlackjack := isBlackjack dealerHand
    let dealerBust := decide (21 < dealerTotal)
    let resolvedPlayers := currentPlayers.map fun p =>
      { p with result := resolveResult p dealerTotal dealerBlackjack dealerBust }
    if isMulti s then
      let settled := settleMulti resolvedPlayers nextPot
      some { s with players := settled.1, pot := settled.2, dealer := nextDealer,
                    deck := nextDeck, phase := "roundEnd", message := roundEndMsg }
    else
      some { s with players := resolvedPlayers.map settleSinglePlayer,
                    dealer := nextDealer, deck := nextDeck, phase := "roundEnd",
                    message := roundEndMsg }

/-- `advanceTurn(nextPlayers, nextDealer, nextDeck, nextPot = pot)`: point
at the next active player, or run the dealer turn when none remains. -/
def advanceTurn (s : GameState) (nextPlayers : List Player) (nextDealer : Dealer)
    (nextDeck : List Card) (nextPot : ℚ) : Option GameState :=
  let nextIndex := nextActiveIndex nextPlayers (s.currentIndex : ℤ)
  if nextIndex = -1 then
    handleDealerTurn s nextPlayers nextDealer nextDeck nextPot
  else
    some { s with players := nextPlayers, dealer := nextDealer, deck := nextDeck,
                  currentIndex := nextIndex.toNat }

/-- `handleHit()`: guarded on the current player existing and being
`active`; draw one card, set `bust` above 21 or `stand` at exactly 21, and
advance the turn when the status left `active`. -/
def handleHit (s : GameState) : Option GameState :=
  match s.players[s.currentIndex]? with
  | none => some s
  | some player =>
    if player.status ≠ "active" then some s
    else
      match drawCard s.deck with
      | (none, _) => none
      | (some c, nextDeck) =>
        let updatedHand := player.hand ++ [c]
        let total := calculateHand updatedHand
        let newStatus :=
          if 21 < total then "bust" else if total = 21 then "stand" else player.status
        let updatedPlayers := s.players.mapIdx fun idx p =>
          if idx = s.currentIndex then { p with hand := updatedHand, status := newStatus }
          else p
        if newStatus ≠ "active" then
          advanceTurn s updatedPlayers s.dealer nextDeck s.pot
        else
          some { s with deck := nextDeck, players := updatedPlayers }

/-- `handleStand()`: **no guard** — mark the current player `stand` and
advance the turn, whatever the phase or the player's status. -/
def handleStand (s : GameState) : Option GameState :=
  let updatedPlayers := s.players.mapIdx fun idx p =>
    if idx = s.currentIndex then { p with status := "stand" } else p
  advanceTurn s updatedPlayers s.dealer s.deck s.pot

/-- `handleDeal()`: reject invalid bets with a message and no other state
change; otherwise debit the bets, deal, enter the playing phase (adding
the bets to the pot in multiplayer), and run the dealer turn at once when
nobody is active after the deal. -/
def handleDeal (fresh : List Card) (s : GameState) : Option GameState :=
  if invalidBets s.players then some { s with message := dealRejectMsg }
  else
    let potIncrease := (s.players.map Player.bet).sum
    let reserved := reservePlayers s.players
    match dealInitial fresh s.deck reserved with
    | none => none
    | some (nextDeck, dealtPlayers, nextDealer) =>
      let s1 := { s with deck := nextDeck, players := dealtPlayers, dealer := nextDealer,
                         phase := "playing", message := actionMsg,
                         pot := if isMulti s then s.pot + potIncrease else s.pot }
      let nextIndex := nextActiveIndex dealtPlayers (-1)
      if nextIndex = -1 then
        handleDealerTurn s1 dealtPlayers nextDealer nextDeck
          (if isMulti s then s.pot + potIncrease else s.pot)
      else
        some { s1 with currentIndex := nextIndex.toNat }

/- ------------------------------------------------------------------ -/
/- Characterisation of the turn scan. -/

/-- `scanActive` returns `-1` exactly when no player at or after `start`
is active, and returns `j` exactly for the least active index `≥ start`. -/
theorem scanActive_spec (players : List Player) (start : ℕ) :
    (scanActive players start = -1 ↔
      ∀ j (hj : j < players.length), start ≤ j →
        (players.get ⟨j, hj⟩).status ≠ "active") ∧
    (∀ j : ℕ, scanActive players start = (j : ℤ) →
      start ≤ j ∧ ∃ hj : j < players.length,
        (players.get ⟨j, hj⟩).status = "active" ∧
        ∀ k (hk : k < players.length), start ≤ k → k < j →
          (players.get ⟨k, hk⟩).status ≠ "active") := by
  by_cases h : start < players.length
  · rw [scanActive, dif_pos h]
    by_cases hs : ((players.get ⟨start, h⟩).status == "active") = true
    · rw [if_pos hs]
      constructor
      · constructor
        · intro habs
          exact absurd habs (by omega)
        · intro hall
          exact absurd (beq_iff_eq.mp hs) (hall start h le_rfl)
      · intro j hjeq
        have hj : start = j := by omega
        subst hj
        exact ⟨le_rfl, h, beq_iff_eq.mp hs, fun k hk hk1 hk2 => absurd hk2 (by omega)⟩
    · rw [if_neg hs]
      have hne : (players.get ⟨start, h⟩).status ≠ "active" := by
        simpa using hs
      have ih := scanActive_spec players (start + 1)
      constructor
      · rw [ih.1]
        constructor
        · intro hall j hj hsj
          rcases Nat.eq_or_lt_of_le hsj with heq | hlt
          · subst heq; exact hne
          · exact hall j hj hlt
        · intro hall j hj hsj
          exact hall j hj (by omega)
      · intro j hjeq
        obtain ⟨hle, hj, hact, hmin⟩ := ih.2 j hjeq
        refine ⟨by omega, hj, hact, ?_⟩
        intro k hk hks hkj
        rcases Nat.eq_or_lt_of_le hks with heq | hlt
        · subst heq; exact hne
        · exact hmin k hk hlt hkj
  · rw [scanActive, dif_neg h]
    refine ⟨⟨fun _ j hj hsj => absurd hj (by omega), fun _ => rfl⟩, ?_⟩
    intro j hjeq
    exact absurd hjeq (by omega)
termination_by players.length - start

/- ------------------------------------------------------------------ -/
/- The deal: drawing from the end of the deck, viewed on the reversed
   deck (draw order). -/

/-- Dropping the last element reverses to dropping the head. -/
theorem reverse_dropLast_eq {α : Type _} (l : List α) :
    l.dropLast.reverse = l.reverse.tail := by
  induction l using List.reverseRecOn with
  | nil => simp
  | append_singleton xs x ih => simp

/-- `drawCard` on the reversed tail view: drawing from
`(A.drop m).reverse` yields the card at draw position `m` and the deck
`(A.drop (m+1)).reverse`. -/
theorem drawCard_rev (A : List Card) (m : ℕ) (hm : m < A.length) :
    drawCard ((A.drop m).reverse) =
      (some (A.getD m default), (A.drop (m + 1)).reverse) := by
  have h1 : ((A.drop m).reverse).getLast? = some (A.getD m default) := by
    rw [← List.head?_reverse]
    simp [List.head?_drop, List.getElem?_eq_getElem hm, List.getD_eq_getElem?_getD]
  have h2 : ((A.drop m).reverse).dropLast = (A.drop (m + 1)).reverse := by
    have h3 := reverse_dropLast_eq ((A.drop m).reverse)
    rw [List.reverse_reverse, List.tail_drop] at h3
    calc ((A.drop m).reverse).dropLast
        = ((A.drop m).reverse).dropLast.reverse.reverse := by simp
      _ = (A.drop (m + 1)).reverse := by rw [h3]
  simp [drawCard, h1, h2]

/-- The dealing pass on an explicit deck: with enough cards, every player
receives, in seat order, the successive cards from the end of the deck. -/
theorem dealToEach_eq : ∀ (ps : List Player) (deck : List Card), ps.length ≤ deck.length →
    dealToEach deck ps = some ((deck.reverse.drop ps.length).reverse,
      ps.mapIdx fun i p => { p with hand := p.hand ++ [deck.reverse.getD i default] }) := by
  intro ps
  induction ps with
  | nil => intro deck _; simp [dealToEach]
  | cons p rest ih =>
    intro deck hlen
    have hne : deck ≠ [] := by
      intro h
      subst h
      simp at hlen
    obtain ⟨c, t, hrev⟩ : ∃ c t, deck.reverse = c :: t := by
      cases hd : deck.reverse with
      | nil => exact absurd (List.reverse_eq_nil_iff.mp hd) hne
      | cons c t => exact ⟨c, t, rfl⟩
    have hdraw : drawCard deck = (some c, t.reverse) := by
      have h1 : deck.getLast? = some c := by
        rw [← List.head?_reverse, hrev]
        rfl
      have h2 : deck.dropLast = t.reverse := by
        have h3 := reverse_dropLast_eq deck
        rw [hrev] at h3
        calc deck.dropLast = deck.dropLast.reverse.reverse := by simp
          _ = t.reverse := by rw [h3]; rfl
      simp [drawCard, h1, h2]
    have hlen' : rest.length ≤ t.reverse.length := by
      have hl := congrArg List.length hrev
      simp only [List.length_reverse, List.length_cons] at hl
      simp only [List.length_cons] at hlen
      simp only [List.length_reverse]
      omega
    simp only [dealToEach, hdraw, ih t.reverse hlen']
    rw [hrev]
    simp [List.mapIdx_cons, List.getD_cons_succ, List.getD_cons_zero, List.drop_succ_cons]

/-- The dealing pass on the reversed-deck view. -/
theorem dealToEach_rev (A : List Card) (m : ℕ) (ps : List Player)
    (h : m + ps.length ≤ A.length) :
    dealToEach ((A.drop m).reverse) ps =
      some ((A.drop (m + ps.length)).reverse,
        ps.mapIdx fun i p => { p with hand := p.hand ++ [A.getD (m + i) default] }) := by
  rw [dealToEach_eq ps _ (by simp; omega)]
  simp only [Option.some.injEq, Prod.mk.injEq, List.reverse_reverse]
  constructor
  · simp [List.drop_drop, Nat.add_comm]
  · congr 1
    funext i p
    have hgd : (A.drop m).getD i default = A.getD (m + i) default := by
      simp [List.getD_eq_getElem?_getD, List.getElem?_drop]
    rw [hgd]

/-- `dealInitial` on an adequate deck: writing `A` for the reversed
(ensured) deck — so that `A` lists the cards in draw order — seat `i`
receives `[A i, A (n+1+i)]`, the dealer receives `[A n, A (2n+1)]`
(the round-robin interleaving), naturals are marked `blackjack`, everyone
else is `active`, the dealer starts hidden, and `2n+2` cards leave the
deck. -/
theorem dealInitial_spec (fresh deck : List Card) (players : List Player)
    (hdeck : 15 ≤ (ensureDeck fresh deck).length) (hn : players.length ≤ 6) :
    dealInitial fresh deck players =
      some ((((ensureDeck fresh deck).reverse).drop (2 * players.length + 2)).reverse,
        players.mapIdx (fun i p =>
          { p with
            hand := [(ensureDeck fresh deck).reverse.getD i default,
                     (ensureDeck fresh deck).reverse.getD (players.length + 1 + i) default],
            status :=
              if isBlackjack
                  [(ensureDeck fresh deck).reverse.getD i default,
                   (ensureDeck fresh deck).reverse.getD (players.length + 1 + i) default]
                then "blackjack" else "active",
            result := "" }),
        { hand := [(ensureDeck fresh deck).reverse.getD players.length default,
                   (ensureDeck fresh deck).reverse.getD (2 * players.length + 1) default],
          hidden := true }) := by
  have hA : 15 ≤ (ensureDeck fresh deck).reverse.length := by simpa using hdeck
  have hed : ensureDeck fresh deck = ((ensureDeck fresh deck).reverse.drop 0).reverse := by
    simp
  have h1 := dealToEach_rev (ensureDeck fresh deck).reverse 0
    (players.map fun p => { p with hand := [], status := "active", result := "" })
    (by simp only [List.length_map]; omega)
  rw [← hed] at h1
  simp only [List.length_map, Nat.zero_add] at h1
  have h2 := drawCard_rev (ensureDeck fresh deck).reverse players.length (by omega)
  have h3 := dealToEach_rev (ensureDeck fresh deck).reverse (players.length + 1)
    ((players.map fun p => { p with hand := [], status := "active", result := "" }).mapIdx
      fun i p => { p with hand := p.hand ++ [(ensureDeck fresh deck).reverse.getD i default] })
    (by simp only [List.length_mapIdx, List.length_map]; omega)
  simp only [List.length_mapIdx, List.length_map] at h3
  rw [show players.length + 1 + players.length = 2 * players.length + 1 by omega] at h3
  have h4 := drawCard_rev (ensureDeck fresh deck).reverse (2 * players.length + 1) (by omega)
  simp only [dealInitial, h1, h2, h3, h4]
  refine congrArg some ?_
  refine Prod.ext ?_ (Prod.ext ?_ rfl)
  · rfl
  · apply List.ext_getElem
    · simp
    · intro i hi1 hi2
      simp only [List.getElem_map, List.getElem_mapIdx]
      simp
      split <;> rfl

/-- C8: on a deck that is not replenished (at least 15 cards), the deal
consumes cards from the end of the deck in round-robin order — writing
`A := deck.reverse` for the draw order, seat `i`'s two-card hand is
`[A i, A (n+1+i)]` and the dealer's is `[A n, A (2n+1)]` — every natural
two-card 21 is marked `blackjack` immediately, the dealer starts hidden,
and the rest of the state of each player is the reset seat. -/
theorem dealInitial_round_robin (fresh deck : List Card) (players : List Player)
    (hdeck : 15 ≤ deck.length) (hn : players.length ≤ 6) :
    dealInitial fresh deck players =
      some ((deck.reverse.drop (2 * players.length + 2)).reverse,
        players.mapIdx (fun i p =>
          { p with
            hand := [deck.reverse.getD i default,
                     deck.reverse.getD (players.length + 1 + i) default],
            status :=
              if isBlackjack
                  [deck.reverse.getD i default,
                   deck.reverse.getD (players.length + 1 + i) default]
                then "blackjack" else "active",
            result := "" }),
        { hand := [deck.reverse.getD players.length default,
                   deck.reverse.getD (2 * players.length + 1) default],
          hidden := true }) := by
  have he : ensureDeck fresh deck = deck := by
    unfold ensureDeck
    rw [if_neg (by omega)]
  have h := dealInitial_spec fresh deck players (by rw [he]; exact hdeck) hn
  rw [he] at h
  exact h

/-- A first seat used by the concrete deal witness. -/
def seatW1 : Player :=
  { id := 1, name := "Player 1", chips := 900, bet := 100, hand := [],
    status := "idle", result := "" }

/-- A second seat used by the concrete deal witness. -/
def seatW2 : Player :=
  { id := 2, name := "Player 2", chips := 900, bet := 100, hand := [],
    status := "idle", result := "" }

/-- The cards of the witness deck in draw order: seat 1 receives A♠ then
K♠ (a natural), seat 2 receives 5♥ then 7♦, the dealer 9♣ then 8♣. -/
def drawOrderW : List Card :=
  [mkCard "♠" "A", mkCard "♥" "5", mkCard "♣" "9",
   mkCard "♠" "K", mkCard "♦" "7", mkCard "♣" "8",
   mkCard "♠" "2", mkCard "♥" "2", mkCard "♦" "2", mkCard "♣" "2",
   mkCard "♠" "3", mkCard "♥" "3", mkCard "♦" "3", mkCard "♣" "3",
   mkCard "♠" "4", mkCard "♥" "4"]

/-- Witness for C8: dealing the concrete 16-card deck to two seats gives
the interleaved hands, marks seat 1's natural, and leaves the dealer
hidden. -/
theorem dealInitial_round_robin_witness :
    (dealInitial [] drawOrderW.reverse [seatW1, seatW2]).map
        (fun out => (out.2.1.map Player.hand, out.2.1.map Player.status, out.2.2)) =
      some ([[mkCard "♠" "A", mkCard "♠" "K"], [mkCard "♥" "5", mkCard "♦" "7"]],
        ["blackjack", "active"],
        { hand := [mkCard "♣" "9", mkCard "♣" "8"], hidden := true }) := by
  rw [dealInitial_round_robin [] drawOrderW.reverse [seatW1, seatW2]
    (by decide) (by decide)]
  decide

/- ------------------------------------------------------------------ -/
/- The betting → dealing transition. -/

/-- Whenever `handleDealerTurn` returns a state, that state is in the
`roundEnd` phase. -/
theorem handleDealerTurn_phase (s : GameState) (cp : List Player) (cd : Dealer)
    (dk : List Card) (np : ℚ) (s' : GameState)
    (h : handleDealerTurn s cp cd dk np = some s') : s'.phase = "roundEnd" := by
  unfold handleDealerTurn at h
  rcases hdd : dealerDraw dk cd.hand with _ | ⟨nextDeck, dealerHand⟩
  · rw [hdd] at h
    exact Option.noConfusion h
  · rw [hdd] at h
    by_cases hm : isMulti s = true
    · simp only [hm, if_true] at h
      obtain rfl := (Option.some.injEq _ _).mp h.symm
      rfl
    · simp only [Bool.not_eq_true] at hm
      simp only [hm, Bool.false_eq_true, if_false] at h
      obtain rfl := (Option.some.injEq _ _).mp h.symm
      rfl

/-- C3: the deal transition. `invalidBets` is false exactly when every
bet is strictly positive and within the player's chips; an invalid bet
rejects the transition, changing nothing but the message; a valid bet
set reaches the dealing code — `dealInitial` succeeds on the players
debited by `reservePlayers` (every dealt player's chips are the pre-deal
chips minus the bet), and any state the handler returns has left the
betting phase. -/
theorem handleDeal_validation (fresh : List Card) (s : GameState)
    (hfresh : 15 ≤ fresh.length) (hn : s.players.length ≤ 6) :
    (invalidBets s.players = false ↔ ∀ p ∈ s.players, 0 < p.bet ∧ p.bet ≤ p.chips) ∧
    (invalidBets s.players = true →
      handleDeal fresh s = some { s with message := dealRejectMsg }) ∧
    (invalidBets s.players = false →
      (∃ nextDeck dealtPlayers nextDealer,
        dealInitial fresh s.deck (reservePlayers s.players) =
          some (nextDeck, dealtPlayers, nextDealer) ∧
        dealtPlayers.length = s.players.length ∧
        ∀ i (h : i < s.players.length),
          dealtPlayers[i]?.map Player.chips =
            some ((s.players.get ⟨i, h⟩).chips - (s.players.get ⟨i, h⟩).bet)) ∧
      ∀ s', handleDeal fresh s = some s' →
        s'.phase = "playing" ∨ s'.phase = "roundEnd") := by
  have hEd : 15 ≤ (ensureDeck fresh s.deck).length := by
    unfold ensureDeck
    split <;> omega
  have hRn : (reservePlayers s.players).length = s.players.length := by
    simp [reservePlayers]
  have hspec := dealInitial_spec fresh s.deck (reservePlayers s.players) hEd (by omega)
  refine ⟨?_, ?_, ?_⟩
  · rw [invalidBets, List.any_eq_false]
    constructor
    · intro hall p hp
      have := hall p hp
      simp only [Bool.or_eq_true, decide_eq_true_eq, not_or, not_le, not_lt] at this
      exact this
    · intro hall p hp
      have := hall p hp
      simp only [Bool.or_eq_true, decide_eq_true_eq, not_or, not_le, not_lt]
      exact this
  · intro hbad
    simp [handleDeal, hbad]
  · intro hok
    constructor
    · refine ⟨_, _, _, hspec, ?_, ?_⟩
      · simp [hRn]
      · intro i h
        have hi : i < (reservePlayers s.players).length := by omega
        simp only [List.length_mapIdx, List.getElem?_eq_getElem, hi,
          List.getElem_mapIdx, Option.map_some']
        simp [reservePlayers, List.getElem_map, List.get_eq_getElem]
    · intro s' hs'
      simp only [handleDeal, hok, Bool.false_eq_true, if_false, hspec] at hs'
      split at hs'
      · exact Or.inr (handleDealerTurn_phase _ _ _ _ _ _ hs')
      · obtain rfl := (Option.some.injEq _ _).mp hs'.symm
        exact Or.inl rfl

/-- `const emptyDealer = { hand: [], hidden: true }`. -/
def emptyDealer : Dealer := { hand := [], hidden := true }

/-- A betting-phase table with a single seated player who has not placed
a bet yet. -/
def betStateW : GameState :=
  { phase := "betting", playerCount := 1, players := [idlePlayer],
    dealer := emptyDealer, deck := [mkCard "♠" "K", mkCard "♥" "Q"],
    currentIndex := 0, message := "", round := 1, pot := 0 }

/-- Witness for C3: dealing while the only player's bet is 0 is rejected,
changing nothing but the message. -/
theorem handleDeal_validation_witness :
    handleDeal drawOrderW.reverse betStateW =
      some { betStateW with message := dealRejectMsg } := by
  have h := handleDeal_validation drawOrderW.reverse betStateW (by decide) (by decide)
  exact h.2.1 (by simp [invalidBets, betStateW, idlePlayer])

/- ------------------------------------------------------------------ -/
/- Player actions. -/

/-- C4 (amended): `handleHit` is a no-op — it returns the state unchanged
without drawing — exactly under the source's guard: the player at the
acting index is missing or their status is not `active`.  (The guard
checks the player's status, never the phase; `handleStand` has no guard
at all — see the counterexample.) -/
theorem handleHit_guard_noop (s : GameState)
    (h : ∀ p, s.players[s.currentIndex]? = some p → p.status ≠ "active") :
    handleHit s = some s := by
  cases hp : s.players[s.currentIndex]? with
  | none => simp [handleHit, hp]
  | some p => simp [handleHit, hp, h p hp]

/-- Witness for C4: hitting while the seated player is `idle` (betting
phase) changes nothing. -/
theorem handleHit_guard_noop_witness : handleHit betStateW = some betStateW := by
  apply handleHit_guard_noop betStateW
  intro p hp
  have hid : idlePlayer = p := by
    simpa [betStateW] using hp
  rw [← hid]
  decide

/-- One drawing step of the dealer loop. -/
theorem dealerDraw_step (deck hand : List Card) (h : calculateHand hand < 17)
    (c : Card) (rest : List Card) (hd : drawCard deck = (some c, rest)) :
    dealerDraw deck hand = dealerDraw rest (hand ++ [c]) := by
  rw [dealerDraw, if_pos h, hd]

/-- The dealer loop stops at 17 or more. -/
theorem dealerDraw_stop (deck hand : List Card) (h : ¬calculateHand hand < 17) :
    dealerDraw deck hand = some (deck, hand) := by
  rw [dealerDraw, if_neg h]

/-- Counterexample for C4: `handleStand` invoked in the betting phase is
**not** a no-op — it marks the idle player `stand`, runs the whole dealer
turn and settlement, and leaves the table in the `roundEnd` phase. -/
theorem handleStand_not_noop :
    (handleStand betStateW).map GameState.phase = some "roundEnd" ∧
    betStateW.phase = "betting" := by
  constructor
  · have hstand : handleStand betStateW =
        advanceTurn betStateW [{ idlePlayer with status := "stand" }]
          betStateW.dealer betStateW.deck betStateW.pot := rfl
    have hnai : nextActiveIndex [{ idlePlayer with status := "stand" }]
        ((betStateW.currentIndex : ℕ) : ℤ) = -1 := by
      rw [nextActiveIndex]
      have h1 : (((betStateW.currentIndex : ℕ) : ℤ) + 1).toNat = 1 := by
        simp [betStateW]
      rw [h1, scanActive, dif_neg (by decide)]
    have hdd : dealerDraw betStateW.deck emptyDealer.hand =
        some ([], [mkCard "♥" "Q", mkCard "♠" "K"]) := by
      rw [dealerDraw_step _ _ (by decide) (mkCard "♥" "Q") [mkCard "♠" "K"] (by decide)]
      rw [dealerDraw_step _ _ (by decide) (mkCard "♠" "K") [] (by decide)]
      exact dealerDraw_stop _ _ (by decide)
    rw [hstand]
    rw [advanceTurn]
    rw [hnai, if_pos rfl]
    rw [handleDealerTurn]
    rw [show betStateW.dealer = emptyDealer from rfl, hdd]
    rfl
  · rfl

/-- C5: hitting as the acting player (status `active`, a card available):
exactly one card joins that player's hand and nobody else's; above 21 the
status becomes `bust`, at exactly 21 it becomes `stand`; below 21 the
status stays `active` and the state keeps the same acting index and
phase; when the turn ended, the acting pointer moves to the least index
strictly after the current one whose player is `active` (skipping every
other status), and when no such player exists the hit ends in the dealer
turn. -/
theorem handleHit_active_turn (s : GameState) (p : Player) (c : Card)
    (hand2 : List Card) (total : ℕ) (st2 : String) (players2 : List Player)
    (hp : s.players[s.currentIndex]? = some p) (hact : p.status = "active")
    (hdraw : s.deck.getLast? = some c)
    (hhand : hand2 = p.hand ++ [c])
    (htotal : total = calculateHand hand2)
    (hst : st2 = if 21 < total then "bust" else if total = 21 then "stand" else p.status)
    (hplayers : players2 = s.players.mapIdx fun idx q =>
      if idx = s.currentIndex then { q with hand := hand2, status := st2 } else q) :
    players2[s.currentIndex]? = some { p with hand := hand2, status := st2 } ∧
    (∀ j, j ≠ s.currentIndex → players2[j]? = s.players[j]?) ∧
    (21 < total → st2 = "bust") ∧
    (total = 21 → st2 = "stand") ∧
    (total < 21 →
      st2 = "active" ∧
      handleHit s = some { s with deck := s.deck.dropLast, players := players2 }) ∧
    (st2 ≠ "active" →
      (∀ j : ℕ, nextActiveIndex players2 (s.currentIndex : ℤ) = (j : ℤ) →
        handleHit s = some { s with deck := s.deck.dropLast, players := players2,
                                    dealer := s.dealer, currentIndex := j } ∧
        s.currentIndex < j ∧
        ∃ hj : j < players2.length, (players2.get ⟨j, hj⟩).status = "active" ∧
          ∀ k (hk : k < players2.length), s.currentIndex < k → k < j →
            (players2.get ⟨k, hk⟩).status ≠ "active") ∧
      (nextActiveIndex players2 (s.currentIndex : ℤ) = -1 →
        (∀ j (hj : j < players2.length), s.currentIndex < j →
          (players2.get ⟨j, hj⟩).status ≠ "active") ∧
        handleHit s = handleDealerTurn s players2 s.dealer s.deck.dropLast s.pot)) := by
  have hlt : s.currentIndex < s.players.length := by
    by_contra hge
    rw [List.getElem?_eq_none (le_of_not_lt hge)] at hp
    exact Option.noConfusion hp
  have hpe : s.players[s.currentIndex] = p := by
    rw [List.getElem?_eq_getElem hlt] at hp
    exact (Option.some.injEq _ _).mp hp
  have hlen2 : players2.length = s.players.length := by
    rw [hplayers]; simp
  have hHit : handleHit s =
      if st2 ≠ "active" then advanceTurn s players2 s.dealer s.deck.dropLast s.pot
      else some { s with deck := s.deck.dropLast, players := players2 } := by
    simp only [handleHit, hp]
    rw [if_neg (by simp [hact])]
    simp only [drawCard, hdraw]
    simp only [← hhand, ← htotal, ← hst, ← hplayers]
  refine ⟨?_, ?_, ?_, ?_, ?_, ?_⟩
  · rw [hplayers]
    rw [List.getElem?_eq_getElem (by simpa using hlt)]
    simp [List.getElem_mapIdx, hpe]
  · intro j hj
    by_cases hjl : j < s.players.length
    · rw [hplayers]
      rw [List.getElem?_eq_getElem (by simpa using hjl),
        List.getElem?_eq_getElem hjl]
      simp [List.getElem_mapIdx, hj]
    · rw [List.getElem?_eq_none (by omega), List.getElem?_eq_none (by omega)]
  · intro h21
    rw [hst, if_pos h21]
  · intro h21
    rw [hst, if_neg (by omega), if_pos h21]
  · intro h21
    have hs2 : st2 = "active" := by
      rw [hst, if_neg (by omega), if_neg (by omega), hact]
    refine ⟨hs2, ?_⟩
    rw [hHit, if_neg (by simp [hs2])]
  · intro hend
    have hstart : (((s.currentIndex : ℕ) : ℤ) + 1).toNat = s.currentIndex + 1 := by
      omega
    rw [hHit, if_pos hend]
    constructor
    · intro j hj
      have hne : nextActiveIndex players2 (s.currentIndex : ℤ) ≠ -1 := by
        rw [hj]; omega
      rw [advanceTurn]
      rw [if_neg hne, hj]
      have hjn := (scanActive_spec players2 (s.currentIndex + 1)).2 j
        (by rw [nextActiveIndex, hstart] at hj; exact hj)
      obtain ⟨hle, hjl, hactj, hmin⟩ := hjn
      refine ⟨by simp, by omega, hjl, hactj, ?_⟩
      intro k hk h1 h2
      exact hmin k hk (by omega) h2
    · intro hneg
      have hall := (scanActive_spec players2 (s.currentIndex + 1)).1.mp
        (by rw [nextActiveIndex, hstart] at hneg; exact hneg)
      refine ⟨fun j hj h1 => hall j hj (by omega), ?_⟩
      rw [advanceTurn, if_pos hneg]

/-- First acting seat of the hit witness: a hard 20. -/
def activeP1 : Player :=
  { id := 1, name := "Player 1", chips := 900, bet := 100,
    hand := [mkCard "♠" "K", mkCard "♥" "Q"], status := "active", result := "" }

/-- Second acting seat of the hit witness. -/
def activeP2 : Player :=
  { id := 2, name := "Player 2", chips := 900, bet := 100,
    hand := [mkCard "♠" "9", mkCard "♥" "9"], status := "active", result := "" }

/-- The players after the witness hit busts seat 0. -/
def hitPlayers2W : List Player :=
  [{ activeP1 with hand := activeP1.hand ++ [mkCard "♦" "5"], status := "bust" },
   activeP2]

/-- A playing-phase table where seat 0 is about to hit on 20. -/
def hitStateW : GameState :=
  { phase := "playing", playerCount := 2, players := [activeP1, activeP2],
    dealer := { hand := [mkCard "♦" "2", mkCard "♣" "2"], hidden := true },
    deck := [mkCard "♦" "5"], currentIndex := 0, message := "", round := 1,
    pot := 200 }

/-- Witness for C5: seat 0 hits on 20, draws a 5 (total 25, bust), and
the acting pointer advances to seat 1 while the phase stays `playing`. -/
theorem handleHit_active_turn_witness :
    (handleHit hitStateW).map (fun t => (t.currentIndex, t.phase)) =
      some (1, "playing") := by
  have h := handleHit_active_turn hitStateW activeP1 (mkCard "♦" "5")
      (activeP1.hand ++ [mkCard "♦" "5"]) 25 "bust" hitPlayers2W
      rfl rfl rfl rfl (by decide) (by decide) rfl
  have hnai : nextActiveIndex hitPlayers2W ((hitStateW.currentIndex : ℕ) : ℤ) =
      ((1 : ℕ) : ℤ) := by
    rw [nextActiveIndex]
    rw [show (((hitStateW.currentIndex : ℕ) : ℤ) + 1).toNat = 1 from by decide]
    rw [scanActive]
    decide
  have h2 := (h.2.2.2.2.2 (by decide)).1 1 hnai
  rw [h2.1]
  rfl

end BlackjackV
